import Mathlib

/-!
# Verification of the Charactergraph pipeline

Shallow embedding of the core pipeline of charactergraph.py (class
Charactergraph and main) and proofs checking the specification's claims
against it.

Modelling conventions:
* Python strings are `List Char`; `str.lower` is `Char.toLower` mapped over
  the characters.
* The spaCy recognizer, the nltk tokenizer and the EPUB reader are external
  collaborators; they enter the embedding as function parameters.
* The generator `segment_text` is embedded with explicit fuel: the
  `Option`-valued runner returns `none` when the loop has not finished
  within the given fuel (taking fuel = length of the text + 1 is enough for
  every terminating run, because any iteration that fails to advance the
  cursor repeats forever), and a prefix-of-stream runner returns the chunks
  yielded by the first `fuel` iterations.
* Machine integers are `Nat`/`Int`; the relevant quantities (cursor,
  segment size, counts) never exceed these in the source.
-/

/-- Python `str.rpartition(sep)` for a one-character separator, keeping the
`(before, after)` components of the 3-tuple (the middle component, the
separator itself, is discarded by `segment_text`).  Splits at the last
occurrence of `sep`; when `sep` does not occur, `before` is empty and
`after` is the whole string — exactly CPython's contract. -/
def rpartitionChar (sep : Char) : List Char → List Char × List Char
  | [] => ([], [])
  | c :: rest =>
    if sep ∈ rest then
      let p := rpartitionChar sep rest
      (c :: p.1, p.2)
    else if c = sep then ([], rest)
    else ([], c :: rest)

/-- Python `str.rstrip(sep)` for a one-character separator: remove all
trailing copies of `sep`. -/
def rstripChar (sep : Char) (s : List Char) : List Char :=
  (s.reverse.dropWhile (fun c => c = sep)).reverse

/-- One iteration of the loop body of `Charactergraph.segment_text`
(charactergraph.py lines 153-160): take the window `text[i:i+segment_size]`,
rpartition it at the last separator into `(before, _, after)`, advance the
cursor by `segment_size - len(after)` and yield `before.rstrip(separator)`.
Returns (yielded chunk, new cursor).  `after` is a suffix of the window, so
`after.length ≤ segment_size` and the truncated `Nat` subtraction agrees
with Python's `int` subtraction. -/
def segStep (text : List Char) (segment_size : Nat) (sep : Char) (i : Nat) :
    List Char × Nat :=
  let window := (text.drop i).take segment_size
  let p := rpartitionChar sep window
  (rstripChar sep p.1, i + (segment_size - p.2.length))

/-- The `while i < len(text)` loop of `segment_text`, run to completion with
the given fuel: `some chunks` when the loop finishes within `fuel`
iterations, `none` when it is still running (for this loop the cursor
advance depends only on the cursor, so a non-advancing iteration repeats
forever and `none` at fuel `text.length + 1` means genuine
non-termination). -/
def segmentTextFuel (text : List Char) (segment_size : Nat) (sep : Char) :
    Nat → Nat → Option (List (List Char))
  | 0, _ => none
  | fuel + 1, i =>
    if i < text.length then
      match segmentTextFuel text segment_size sep fuel (segStep text segment_size sep i).2 with
      | none => none
      | some rest => some ((segStep text segment_size sep i).1 :: rest)
    else some []

/-- The chunks yielded by the first `fuel` iterations of the `segment_text`
generator (a prefix of its possibly infinite yield stream). -/
def segmentChunksN (text : List Char) (segment_size : Nat) (sep : Char) :
    Nat → Nat → List (List Char)
  | 0, _ => []
  | fuel + 1, i =>
    if i < text.length then
      (segStep text segment_size sep i).1 ::
        segmentChunksN text segment_size sep fuel (segStep text segment_size sep i).2
    else []

/-- `Charactergraph.segment_text(text, segment_size, separator)` consumed to
exhaustion: `some` of the full chunk list when the generator terminates,
`none` when it loops forever.  Fuel `text.length + 1` covers every
terminating run, since a terminating loop advances the cursor by at least
one position per iteration. -/
def segment_text (text : List Char) (segment_size : Nat) (sep : Char) :
    Option (List (List Char)) :=
  segmentTextFuel text segment_size sep (text.length + 1) 0

/-- Words of a string: maximal separator-free non-empty runs, i.e. the word
sequence obtained by splitting on the separator and collapsing repeated
separators.  `cur` accumulates the current word reversed. -/
def wordsAux (sep : Char) : List Char → List Char → List (List Char)
  | [], cur => if cur.isEmpty then [] else [cur.reverse]
  | c :: rest, cur =>
    if c = sep then
      if cur.isEmpty then wordsAux sep rest [] else cur.reverse :: wordsAux sep rest []
    else wordsAux sep rest (c :: cur)

/-- The separator-delimited word sequence of a string. -/
def wordsOf (sep : Char) (s : List Char) : List (List Char) :=
  wordsAux sep s []

/-- Length of the longest separator-delimited word of a string. -/
def maxWordLen (sep : Char) (s : List Char) : Nat :=
  ((wordsOf sep s).map List.length).foldr max 0

/-- Python `re.sub` specialised to a pattern without regex metacharacters,
which is what `replace_space_underscore_fornames` compiles from a plain
name: replace the leftmost, non-overlapping occurrences of the literal
`pat` by `repl`, scanning left to right.  Structural fuel; one unit is
spent per emitted piece, so fuel = length of the subject suffices. -/
def replaceAllGo (pat repl : List Char) : Nat → List Char → List Char
  | 0, s => s
  | _ + 1, [] => []
  | fuel + 1, c :: rest =>
    if pat.isPrefixOf (c :: rest) then
      repl ++ replaceAllGo pat repl fuel (List.drop pat.length (c :: rest))
    else c :: replaceAllGo pat repl fuel rest

/-- Replace every leftmost non-overlapping occurrence of `pat` in `s` by
`repl` (Python `re.compile('(pat)').sub(repl, s)` for a metacharacter-free,
non-empty `pat`). -/
def replaceAll (pat repl s : List Char) : List Char :=
  if pat.isEmpty then s else replaceAllGo pat repl s.length s

/-- `Charactergraph.replace_space_underscore_fornames(text, ner_names)`
(charactergraph.py lines 176-187): for each name, substitute every
(leftmost non-overlapping) occurrence of the name in the current text by
the name with its spaces turned into underscores.  The Python code iterates
over a set; the iteration order is made explicit here as a list. -/
def replace_space_underscore_fornames (text : List Char) (ner_names : List (List Char)) :
    List Char :=
  ner_names.foldl
    (fun t name => replaceAll name (name.map (fun c => if c = ' ' then '_' else c)) t) text

/-- Distinct elements of a list in order of first occurrence — the key order
of a Python `Counter`/`dict` built by counting the list (insertion order =
first-encounter order). -/
def firstOccList {α : Type} [DecidableEq α] : List α → List α
  | [] => []
  | a :: l => a :: (firstOccList l).filter (fun x => decide (x ≠ a))

/-- `Counter(items)` as an association list: each distinct element, in
first-encounter order, with its multiplicity. -/
def countElems {α : Type} [DecidableEq α] (items : List α) : List (α × Nat) :=
  (firstOccList items).map (fun a => (a, items.count a))

/-- Stable insertion (for descending count order): the new pair goes in
front of the first entry whose count is ≤ its own, so among equal counts
earlier entries stay first. -/
def insertDesc {α : Type} (p : α × Nat) : List (α × Nat) → List (α × Nat)
  | [] => [p]
  | q :: rest => if q.2 ≤ p.2 then p :: q :: rest else q :: insertDesc p rest

/-- Stable sort by count, descending — the ordering contract of
`Counter.most_common` (CPython documents that elements with equal counts
keep first-encounter order). -/
def sortCountDesc {α : Type} : List (α × Nat) → List (α × Nat)
  | [] => []
  | p :: rest => insertDesc p (sortCountDesc rest)

/-- `Counter(items).most_common(n)`: the `n` highest-count entries, ties in
first-encounter order. -/
def most_common {α : Type} [DecidableEq α] (items : List α) (n : Nat) : List (α × Nat) :=
  (sortCountDesc (countElems items)).take n

/-- The chronological collection loop of
`Charactergraph.get_most_frequent_items_inorder` (charactergraph.py lines
202-207): scan the items in order; append an item to the accumulator when
it is among the selected names and not yet collected; stop as soon as the
accumulator holds `top_n` entries. -/
def chronoScan {α : Type} [DecidableEq α] (names : List α) (top_n : Nat) :
    List α → List α → List α
  | [], acc => acc
  | item :: rest, acc =>
    let acc' := if item ∈ names ∧ item ∉ acc then acc ++ [item] else acc
    if top_n ≤ acc'.length then acc' else chronoScan names top_n rest acc'

/-- `Charactergraph.get_most_frequent_items_inorder(items, top_n)`
(charactergraph.py lines 189-208): select the `top_n` most frequent items
(ties by first encounter), then list the selected items in the order they
first appear in `items`. -/
def get_most_frequent_items_inorder {α : Type} [DecidableEq α]
    (items : List α) (top_n : Nat) : List α :=
  chronoScan ((most_common items top_n).map Prod.fst) top_n items []

/-- An entity span returned by the external recognizer: its surface text and
its label (spaCy's `ent.text` and `ent.label_`). -/
structure Ent where
  text : List Char
  label : List Char
deriving DecidableEq

/-- Python `str.lower()` (character-wise lowering). -/
def strLower (s : List Char) : List Char := s.map Char.toLower

/-- The label the extractor keeps: `'PERSON'`. -/
def personLabel : List Char := "PERSON".toList

/-- The text `get_person_names` actually feeds to the segmenter
(charactergraph.py lines 249-252): when extra NER names are supplied the
multi-word-name joining is (re-)applied, otherwise the text is passed
through unchanged. -/
def gpnText (text : List Char) (ner_names : List (List Char)) : List Char :=
  if ner_names.isEmpty then text else replace_space_underscore_fornames text ner_names

/-- The segments `get_person_names` iterates over (charactergraph.py lines
260-262): the `segment_text` generator at segment size 100000, consumed for
`fuel` iterations. -/
def gpnSegments (fuel : Nat) (text : List Char) (ner_names : List (List Char)) :
    List (List Char) :=
  segmentChunksN (gpnText text ner_names) 100000 ' ' fuel 0

/-- The per-segment accumulation loop of `get_person_names`
(charactergraph.py lines 265-270): for each segment run the recognizer and
keep the text of every span labelled PERSON whose lowercased text is not in
the lowercased stopword list, concatenating per-segment results in order. -/
def collectNames (recognize : List Char → List Ent) (stopwords_lower : List (List Char)) :
    List (List Char) → List (List Char)
  | [] => []
  | seg :: rest =>
    ((recognize seg).filter (fun e =>
        decide (e.label = personLabel ∧ strLower e.text ∉ stopwords_lower))).map Ent.text
      ++ collectNames recognize stopwords_lower rest

/-- `Charactergraph.get_person_names(text, ner_names, stopwords)`
(charactergraph.py lines 222-272).  The spaCy pipeline — including the
optional EntityRuler patterns registered for the augmented names — is the
external collaborator `recognize`; `fuel` bounds the number of segment
iterations consumed (any sufficiently large fuel yields the generator's
full output when it terminates).  The function lowercases the supplied
stopwords itself before filtering. -/
def get_person_names (recognize : List Char → List Ent) (fuel : Nat) (text : List Char)
    (ner_names stopwords : List (List Char)) : List (List Char) :=
  collectNames recognize (stopwords.map strLower) (gpnSegments fuel text ner_names)

/-- `Charactergraph._process` (charactergraph.py lines 277-288), with the
EPUB text extraction already performed (`raw` is the concatenated chapter
text) and the external tokenizer and recognizer as parameters.  Mirrors the
source order exactly: the token stream is computed from `raw` by
`nltk.word_tokenize` BEFORE `replace_space_underscore_fornames` rewrites
the text, and only the rewritten text reaches `get_person_names`.  Returns
(token stream, name occurrence list). -/
def process (tokenize : List Char → List (List Char)) (recognize : List Char → List Ent)
    (fuel : Nat) (raw : List Char) (ner_names stopwords : List (List Char)) :
    List (List Char) × List (List Char) :=
  (tokenize raw,
   get_person_names recognize fuel (replace_space_underscore_fornames raw ner_names)
     ner_names stopwords)

/-- A simple whitespace tokenizer, standing in for `nltk.word_tokenize` on
texts without punctuation adjacent to words. -/
def wsTokenize (s : List Char) : List (List Char) := wordsOf ' ' s

/-- A stub recognizer that reports one fixed PERSON span for every segment;
used to instantiate theorems at concrete inputs. -/
def recognizeConst (name : List Char) : List Char → List Ent :=
  fun _ => [{ text := name, label := personLabel }]

/-- The heavy pipeline stages of `main`, in the order the source performs
them: the Charactergraph constructor reads the e-book, `_process` tokenizes
and runs NER, then the result is rendered (to screen or file). -/
inductive Effect
  | readEbook
  | tokenizeText
  | runNER
  | renderToScreen
  | renderToFile
deriving DecidableEq

/-- Shallow embedding of `main` (charactergraph.py lines 317-352) after
docopt argument parsing: `n_arg` is `int(arguments['--number'])` and
`output_to_file` tells whether `--output` was given.  The source asserts
`n_arg > 1` before constructing the `Charactergraph` object (which reads
the e-book) and before any tokenization/NER; a failing assert raises
`AssertionError`, modelled as `Except.error` — the process then exits with
a non-zero status.  On the success path `main` returns 0.  The second
component records which heavy stages ran, in order. -/
def mainModel (n_arg : Int) (output_to_file : Bool) :
    Except (List Char) Int × List Effect :=
  if 1 < n_arg then
    (Except.ok 0,
     [Effect.readEbook, Effect.tokenizeText, Effect.runNER,
      if output_to_file then Effect.renderToFile else Effect.renderToScreen])
  else
    (Except.error "Number must be > 1!".toList, [])

/-- Claim C1: the spec says the multi-word-name joining runs before BOTH
tokenization and entity extraction so that the token stream and the name
occurrence list agree on the joined form.  The code does not: `_process`
tokenizes the raw text first and only then rewrites it, so the token stream
always comes from the unjoined text — at the failing input
'Moby Dick sailed' with augmentation name 'Moby Dick' the tokens are
['Moby', 'Dick', 'sailed'] (two tokens for the name) while the name
occurrence list holds 'Moby_Dick'. -/
theorem process_tokenizes_raw_text :
    (∀ tokenize recognize fuel raw ner_names stopwords,
        (process tokenize recognize fuel raw ner_names stopwords).1 = tokenize raw) ∧
    process wsTokenize (recognizeConst "Moby_Dick".toList) 2 "Moby Dick sailed".toList
        ["Moby Dick".toList] []
      = ([ "Moby".toList, "Dick".toList, "sailed".toList ], ["Moby_Dick".toList]) ∧
    "Moby_Dick".toList ∉
      (process wsTokenize (recognizeConst "Moby_Dick".toList) 2 "Moby Dick sailed".toList
        ["Moby Dick".toList] []).1 :=
  ⟨fun _ _ _ _ _ _ => rfl, by decide, by decide⟩

/-- Claim C2: the spec's segmentation-correctness property fails on the
code.  At the spec's own example text with segment size 10 (≥ longest word
4 plus one separator) the generator terminates with chunks
['999 1000', '1001 1002', '1003', ''] whose re-joined, collapsed word
sequence lacks the final word '1004'. -/
theorem segmentation_drops_words :
    maxWordLen ' ' "999 1000 1001 1002 1003 1004".toList + 1 ≤ 10 ∧
    ∃ chunks, segment_text "999 1000 1001 1002 1003 1004".toList 10 ' ' = some chunks ∧
      (chunks.map (wordsOf ' ')).flatten ≠ wordsOf ' ' "999 1000 1001 1002 1003 1004".toList :=
  ⟨by decide, ["999 1000".toList, "1001 1002".toList, "1003".toList, []], by decide, by decide⟩

/-- Claim C3: the spec (and the repository's own unit test) expect
segment_text('999 1000 1001 1002 1003 1004', 10) to yield exactly
['999 1000', '1001 1002', '1003 1004'].  The code instead yields
['999 1000', '1001 1002', '1003', '']: in the final partial window the
cursor advance `segment_size - len(after)` overshoots by the amount the
window is short, so '1004' is torn apart and dropped. -/
theorem segment_text_example_output :
    segment_text "999 1000 1001 1002 1003 1004".toList 10 ' '
      = some ["999 1000".toList, "1001 1002".toList, "1003".toList, []] := by decide

/-- When an iteration of the segment_text loop leaves the cursor where it
was (inside the text), the loop repeats that iteration forever: it
terminates under no fuel. -/
theorem segmentTextFuel_stuck (text : List Char) (ss : Nat) (sep : Char) (i : Nat)
    (hi : i < text.length) (hstep : (segStep text ss sep i).2 = i) :
    ∀ fuel, segmentTextFuel text ss sep fuel i = none := by
  intro fuel
  induction fuel with
  | zero => rfl
  | succ n ih => simp only [segmentTextFuel, hstep, ih, if_pos hi]

/-- Claim C4: the spec (and the repository's own unit test) demand an
InvalidArgument failure for a non-positive or too-small segment size,
before any chunk is produced and without hanging.  The code performs no
validation at all: at segment size 0 (and at size 3 on 'foo', too small to
fit the first word) the loop never terminates under any fuel, and its very
first iteration yields an empty chunk instead of raising. -/
theorem segment_text_no_size_validation :
    (∀ fuel, segmentTextFuel "foo".toList 0 ' ' fuel 0 = none) ∧
    (∀ fuel, segmentTextFuel "foo".toList 3 ' ' fuel 0 = none) ∧
    segmentChunksN "foo".toList 0 ' ' 1 0 = [[]] ∧
    segmentChunksN "foo".toList 3 ' ' 1 0 = [[]] :=
  ⟨segmentTextFuel_stuck _ 0 ' ' 0 (by decide) (by decide),
   segmentTextFuel_stuck _ 3 ' ' 0 (by decide) (by decide),
   by decide, by decide⟩

/-- Claim C5: get_most_frequent_items_inorder is deterministic with
first-encounter tie-breaking: [6,55,1,55,7,8,1,9,55] with topN 2 gives
[55, 1], and [6,1,1,55,7,8,9,55,55] with topN 100 gives all distinct items
in first-occurrence order [6,1,55,7,8,9]. -/
theorem ranking_examples :
    get_most_frequent_items_inorder [6, 55, 1, 55, 7, 8, 1, 9, 55] 2 = [55, 1] ∧
    get_most_frequent_items_inorder [6, 1, 1, 55, 7, 8, 9, 55, 55] 100 = [6, 1, 55, 7, 8, 9] := by
  decide

/-- Claim C8, counterexample: the claimed idempotence fails.  On text
'a a a' with the single name 'a a', one application gives 'a_a a' (matches
are leftmost and non-overlapping, so the occurrence at position 2 is
missed) and a second application gives 'a_a_a'. -/
theorem name_join_not_idempotent :
    replace_space_underscore_fornames
        (replace_space_underscore_fornames "a a a".toList ["a a".toList]) ["a a".toList]
      ≠ replace_space_underscore_fornames "a a a".toList ["a a".toList] := by decide

/-- Claim C8, amended: each (metacharacter-free) name is matched by exact
textual search, leftmost and non-overlapping, and rewritten with its spaces
turned to underscores; the spec's example maps to 'Moby_Dick, Captain_Ahab'
and re-applying on that output changes nothing, but on 'a a a' with name
'a a' the first application already shows the overlap limitation. -/
theorem name_join_example_and_fixed_point :
    replace_space_underscore_fornames "Moby Dick, Captain Ahab".toList
        ["Moby Dick".toList, "Captain Ahab".toList] = "Moby_Dick, Captain_Ahab".toList ∧
    replace_space_underscore_fornames "Moby_Dick, Captain_Ahab".toList
        ["Moby Dick".toList, "Captain Ahab".toList] = "Moby_Dick, Captain_Ahab".toList ∧
    replace_space_underscore_fornames "a a a".toList ["a a".toList] = "a_a a".toList :=
  ⟨by decide, by decide, by decide⟩

/-- Claim C9: with the parsed --number value at most 1, main raises its
assertion (a non-zero exit) before the e-book is read and before any
tokenization or NER runs; with a valid value main returns 0. -/
theorem main_fails_fast_on_small_n (n : Int) (out : Bool) :
    (n ≤ 1 → mainModel n out = (Except.error "Number must be > 1!".toList, [])) ∧
    (1 < n → (mainModel n out).1 = Except.ok 0) := by
  constructor
  · intro h
    have hn : ¬ 1 < n := by omega
    simp [mainModel, hn]
  · intro h
    simp [mainModel, h]

/-- Witness for C9 at n = 1 (failure path) and n = 25 (success path). -/
theorem main_fails_fast_on_small_n_witness :
    mainModel 1 false = (Except.error "Number must be > 1!".toList, []) ∧
    (mainModel 25 true).1 = Except.ok 0 :=
  ⟨(main_fails_fast_on_small_n 1 false).1 (by decide),
   (main_fails_fast_on_small_n 25 true).2 (by decide)⟩

/-- Membership in the first-occurrence list is membership in the list. -/
theorem mem_firstOccList {α : Type} [DecidableEq α] {a : α} {l : List α} :
    a ∈ firstOccList l ↔ a ∈ l := by
  induction l with
  | nil => simp [firstOccList]
  | cons b l ih =>
    by_cases hab : a = b
    · simp [firstOccList, hab]
    · simp [firstOccList, List.mem_filter, decide_eq_true_eq, hab, ih]

/-- The first-occurrence list has no duplicates. -/
theorem nodup_firstOccList {α : Type} [DecidableEq α] (l : List α) :
    (firstOccList l).Nodup := by
  induction l with
  | nil => simp [firstOccList]
  | cons b l ih =>
    rw [firstOccList, List.nodup_cons]
    refine ⟨fun hmem => ?_, ih.filter _⟩
    have := (List.mem_filter.1 hmem).2
    simp at this

/-- The first-occurrence list is a permutation of Mathlib's dedup, so its
length is the number of distinct elements. -/
theorem firstOccList_perm_dedup {α : Type} [DecidableEq α] (l : List α) :
    (firstOccList l).Perm l.dedup :=
  (List.perm_ext_iff_of_nodup (nodup_firstOccList l) (List.nodup_dedup l)).2
    (fun a => by rw [mem_firstOccList, List.mem_dedup])

/-- Structure of the chronological scan: whatever the selected names, the
scan extends its accumulator by a subsequence of the first-occurrence list
of the remaining items, filtered to selected items not already collected. -/
theorem chronoScan_spec {α : Type} [DecidableEq α] (names : List α) (k : Nat) :
    ∀ (rest acc : List α), ∃ ext,
      chronoScan names k rest acc = acc ++ ext ∧
      ext.Sublist ((firstOccList rest).filter
        (fun x => decide (x ∈ names ∧ x ∉ acc))) := by
  intro rest
  induction rest with
  | nil => exact fun acc => ⟨[], by simp [chronoScan], by simp [firstOccList]⟩
  | cons item rest ih =>
    intro acc
    by_cases h : item ∈ names ∧ item ∉ acc
    · by_cases hk : k ≤ acc.length + 1
      · refine ⟨[item], ?_, ?_⟩
        · simp [chronoScan, h, hk]
        · rw [firstOccList, List.filter_cons_of_pos (by simpa using h)]
          exact (List.nil_sublist _).cons₂ _
      · obtain ⟨ext, heq, hsub⟩ := ih (acc ++ [item])
        refine ⟨item :: ext, ?_, ?_⟩
        · simp [chronoScan, h, hk, heq]
        · rw [firstOccList, List.filter_cons_of_pos (by simpa using h)]
          refine List.Sublist.cons₂ _ ?_
          rw [List.filter_filter]
          have hpred : ∀ x : α, (decide (x ∈ names ∧ x ∉ acc ++ [item]) : Bool)
              = (decide (x ∈ names ∧ x ∉ acc) && decide (x ≠ item)) := by
            intro x
            by_cases h1 : x ∈ names <;> by_cases h2 : x ∈ acc <;> by_cases h3 : x = item <;>
              simp [h1, h2, h3]
          rwa [List.filter_congr (fun x _ => hpred x)] at hsub
    · by_cases hk : k ≤ acc.length
      · exact ⟨[], by simp [chronoScan, h, hk], List.nil_sublist _⟩
      · obtain ⟨ext, heq, hsub⟩ := ih acc
        refine ⟨ext, by simp [chronoScan, h, hk, heq], ?_⟩
        rw [firstOccList, List.filter_cons_of_neg (by simpa using h), List.filter_filter]
        have hpred : ∀ x : α, (decide (x ∈ names ∧ x ∉ acc) : Bool)
            = (decide (x ∈ names ∧ x ∉ acc) && decide (x ≠ item)) := by
          intro x
          by_cases h3 : x = item
          · subst h3; simp [h]
          · simp [h3]
        rwa [List.filter_congr (fun x _ => hpred x)] at hsub

/-- The chronological scan never grows past top_n once the accumulator is
below it: the break after each append caps the output length. -/
theorem chronoScan_length_le {α : Type} [DecidableEq α] (names : List α) (k : Nat) :
    ∀ (rest acc : List α), acc.length < k → (chronoScan names k rest acc).length ≤ k := by
  intro rest
  induction rest with
  | nil => intro acc h; simpa [chronoScan] using Nat.le_of_lt h
  | cons item rest ih =>
    intro acc h
    by_cases hcond : item ∈ names ∧ item ∉ acc
    · by_cases hk : k ≤ acc.length + 1
      · simp [chronoScan, hcond, hk]
        omega
      · have := ih (acc ++ [item]) (by simp; omega)
        simpa [chronoScan, hcond, hk] using this
    · by_cases hk : k ≤ acc.length
      · exact absurd h (Nat.not_lt.2 hk)
      · have := ih acc h
        simpa [chronoScan, hcond, hk] using this

/-- Claim C6: for every item list and every topN ≥ 1 the ranker's output
has pairwise-distinct entries drawn from the input, listed in the order of
their first occurrence (a subsequence of the first-occurrence list), and
its length is at most min(topN, number of distinct elements). -/
theorem ranker_output_invariants {α : Type} [DecidableEq α] (items : List α) (topN : Nat)
    (h : 1 ≤ topN) :
    (get_most_frequent_items_inorder items topN).Nodup ∧
    (∀ x ∈ get_most_frequent_items_inorder items topN, x ∈ items) ∧
    (get_most_frequent_items_inorder items topN).Sublist (firstOccList items) ∧
    (get_most_frequent_items_inorder items topN).length ≤ min topN items.dedup.length := by
  obtain ⟨ext, heq, hsub⟩ :=
    chronoScan_spec ((most_common items topN).map Prod.fst) topN items []
  have hr : get_most_frequent_items_inorder items topN = ext := by
    rw [get_most_frequent_items_inorder, heq]; simp
  have hfl : ext.Sublist (firstOccList items) := hsub.trans (List.filter_sublist _)
  refine ⟨?_, ?_, ?_, ?_⟩
  · rw [hr]; exact List.Nodup.sublist hfl (nodup_firstOccList items)
  · rw [hr]; exact fun x hx => mem_firstOccList.1 (hfl.subset hx)
  · rw [hr]; exact hfl
  · refine Nat.le_min.2 ⟨?_, ?_⟩
    · rw [get_most_frequent_items_inorder]
      exact chronoScan_length_le _ topN items [] h
    · rw [hr]
      calc ext.length ≤ (firstOccList items).length := hfl.length_le
        _ = items.dedup.length := (firstOccList_perm_dedup items).length_eq

/-- Witness for C6 at the spec's first ranking example. -/
theorem ranker_output_invariants_witness :
    1 ≤ 2 ∧
    ((get_most_frequent_items_inorder [6, 55, 1, 55, 7, 8, 1, 9, 55] 2).Nodup ∧
     (∀ x ∈ get_most_frequent_items_inorder [6, 55, 1, 55, 7, 8, 1, 9, 55] 2,
        x ∈ ([6, 55, 1, 55, 7, 8, 1, 9, 55] : List Nat)) ∧
     (get_most_frequent_items_inorder [6, 55, 1, 55, 7, 8, 1, 9, 55] 2).Sublist
        (firstOccList [6, 55, 1, 55, 7, 8, 1, 9, 55]) ∧
     (get_most_frequent_items_inorder [6, 55, 1, 55, 7, 8, 1, 9, 55] 2).length ≤
        min 2 ([6, 55, 1, 55, 7, 8, 1, 9, 55] : List Nat).dedup.length) :=
  ⟨by decide, ranker_output_invariants [6, 55, 1, 55, 7, 8, 1, 9, 55] 2 (by decide)⟩

/-- A name is collected by the per-segment loop exactly when some segment's
recognizer output has a PERSON span with that text whose lowercase is not
among the (already lowercased) stopwords. -/
theorem mem_collectNames {recognize : List Char → List Ent} {sl : List (List Char)}
    {segs : List (List Char)} {name : List Char} :
    name ∈ collectNames recognize sl segs ↔
      ∃ seg ∈ segs, ∃ e ∈ recognize seg,
        e.text = name ∧ e.label = personLabel ∧ strLower e.text ∉ sl := by
  induction segs with
  | nil => simp [collectNames]
  | cons s rest ih =>
    simp only [collectNames, List.mem_append, ih, List.mem_map, List.mem_filter,
      decide_eq_true_eq, List.mem_cons]
    constructor
    · rintro (⟨e, ⟨he, hl, hs⟩, ht⟩ | ⟨seg, hseg, e, he, ht, hl, hs⟩)
      · exact ⟨s, Or.inl rfl, e, he, ht, hl, hs⟩
      · exact ⟨seg, Or.inr hseg, e, he, ht, hl, hs⟩
    · rintro ⟨seg, rfl | hseg, e, he, ht, hl, hs⟩
      · exact Or.inl ⟨e, ⟨he, hl, hs⟩, ht⟩
      · exact Or.inr ⟨seg, hseg, e, he, ht, hl, hs⟩

/-- Claim C7: every name returned by get_person_names is the text of a
recognizer span labelled PERSON from one of the processed segments, and its
lowercase form differs from the lowercase form of every stopword. -/
theorem person_names_filtered (recognize : List Char → List Ent) (fuel : Nat)
    (text : List Char) (ner_names stopwords : List (List Char)) (name : List Char)
    (hmem : name ∈ get_person_names recognize fuel text ner_names stopwords) :
    (∃ seg ∈ gpnSegments fuel text ner_names, ∃ e ∈ recognize seg,
        e.label = personLabel ∧ e.text = name) ∧
      ∀ sw ∈ stopwords, strLower name ≠ strLower sw := by
  rw [get_person_names, mem_collectNames] at hmem
  obtain ⟨seg, hseg, e, he, ht, hl, hs⟩ := hmem
  refine ⟨⟨seg, hseg, e, he, hl, ht⟩, ?_⟩
  intro sw hsw hcontra
  apply hs
  rw [ht, hcontra]
  exact List.mem_map_of_mem strLower hsw

/-- Witness for C7: a stub recognizer reporting the PERSON span 'Araminta'
on the text 'x y' with no stopwords. -/
theorem person_names_filtered_witness :
    "Araminta".toList ∈
        get_person_names (recognizeConst "Araminta".toList) 1 "x y".toList [] [] ∧
      ((∃ seg ∈ gpnSegments 1 "x y".toList [],
          ∃ e ∈ recognizeConst "Araminta".toList seg,
            e.label = personLabel ∧ e.text = "Araminta".toList) ∧
        ∀ sw ∈ ([] : List (List Char)), strLower "Araminta".toList ≠ strLower sw) :=
  ⟨by decide, person_names_filtered _ 1 _ [] [] _ (by decide)⟩

/-- Claim C10: get_person_names lowercases the supplied stopword list
itself, so a candidate name agreeing with some stopword up to case is
suppressed whatever the casing the stopwords were loaded with. -/
theorem stopword_match_case_insensitive (recognize : List Char → List Ent) (fuel : Nat)
    (text : List Char) (ner_names stopwords : List (List Char)) (name : List Char)
    (hcase : ∃ sw ∈ stopwords, strLower name = strLower sw) :
    name ∉ get_person_names recognize fuel text ner_names stopwords := by
  intro hmem
  rw [get_person_names, mem_collectNames] at hmem
  obtain ⟨sw, hsw, hls⟩ := hcase
  obtain ⟨seg, hseg, e, he, ht, hl, hs⟩ := hmem
  apply hs
  rw [ht, hls]
  exact List.mem_map_of_mem strLower hsw

/-- Witness for C10: with the stopword stored un-lowercased as 'Hercules'
(as a load with stopwords_ignore_case=False would produce), the
differently-cased candidate 'HERCULES' is still suppressed. -/
theorem stopword_match_case_insensitive_witness :
    (∃ sw ∈ ["Hercules".toList], strLower "HERCULES".toList = strLower sw) ∧
    "HERCULES".toList ∉
      get_person_names (recognizeConst "HERCULES".toList) 1 "x y".toList []
        ["Hercules".toList] :=
  ⟨⟨"Hercules".toList, by decide⟩,
   stopword_match_case_insensitive _ 1 _ [] _ _ ⟨"Hercules".toList, by decide⟩⟩
